import Mathlib

/-!
# Verification of the Kokkos `TaskQueueCommonMixin` completion/scheduling core

Shallow embedding of `src/core/src/impl/Kokkos_TaskQueueCommon.hpp`.

Each member function of `TaskQueueCommonMixin` is modelled as a pure Lean
function that returns the ordered list of observable collaborator operations
("events") the C++ function performs, together with the updated task fields.
Collaborator outcomes that are decided outside this file's source
(`try_add_waiting` success, `decrement_and_check_reference_count` reaching
zero, the contents drained by `consume_wait_queue`) are supplied by an
environment oracle `Env`, exactly mirroring the branch structure of the C++.

Tasks are identified by natural-number ids.  A runnable task's mutable fields
consumed by this core are its optional predecessor and its respawn flag; an
aggregate task's field is its ordered list of predecessor slots
(`aggregate_dependences`, a slot being null or a predecessor id).
-/

/-- Observable operations performed by the engine on its collaborators, in
program order.  `tryAddWaiting pred ok` records the call
`pred.try_add_waiting(task)` and its boolean result (`ok` = append succeeded,
i.e. the predecessor was not yet complete); `decrementRefCount t z` records
`t.decrement_and_check_reference_count()` returning `z`; `scheduleWaiter w`
records the dispatch of drained waiter `w` by
`_schedule_waiting_tasks_operation`; `completeAggregate t` marks the call
`complete(aggregate t)` made at the end of `schedule_aggregate`. -/
inductive Event where
  | clearPredecessor (task : Nat)
  | memoryFence
  | tryAddWaiting (pred : Nat) (ok : Bool)
  | decrementRefCount (t : Nat) (reachedZero : Bool)
  | deallocate (t : Nat)
  | consumeWaitQueue (t : Nat)
  | scheduleWaiter (w : Nat)
  | setRespawnFlag (t : Nat) (b : Bool)
  | incrementReadyCount
  | decrementReadyCount
  | pushReady (t : Nat)
  | completeAggregate (t : Nat)
deriving DecidableEq, Repr

/-- Oracle for the outcomes of collaborator operations: whether
`p.try_add_waiting(..)` succeeds (predecessor `p` not yet complete), whether
`t.decrement_and_check_reference_count()` reaches zero, and which waiters
`t.consume_wait_queue(..)` drains. -/
structure Env where
  tryAddWaiting : Nat → Bool
  refCountReachesZero : Nat → Bool
  waitQueue : Nat → List Nat

/-- Fields of a `RunnableTaskBase` consumed by this core: the optional
predecessor reference and the respawn flag. -/
structure RunnableTask where
  predecessor : Option Nat
  respawn_flag : Bool
deriving DecidableEq, Repr

/-- `TaskQueueCommonMixin::_complete_finished_task`: drain the task's wait
queue (dispatching each drained waiter), then decrement the task's own
reference count and deallocate it exactly when that decrement reaches zero. -/
def complete_finished_task (env : Env) (tid : Nat) : List Event :=
  Event.consumeWaitQueue tid :: (env.waitQueue tid).map Event.scheduleWaiter
    ++ [Event.decrementRefCount tid (env.refCountReachesZero tid)]
    ++ (if env.refCountReachesZero tid then [Event.deallocate tid] else [])

/-- `TaskQueueCommonMixin::_schedule_runnable_to_queue`: resolve the task's
predecessor (if any), release the predecessor's reference count when the
respawn flag is set, clear the respawn flag, and push the task ready (with a
ready-count increment first) iff it is ready.  Returns the event trace and
the task's updated fields. -/
def schedule_runnable_to_queue (env : Env) (tid : Nat) (task : RunnableTask) :
    List Event × RunnableTask :=
  match task.predecessor with
  | some pred =>
      let ok := env.tryAddWaiting pred
      let predEvents :=
        [Event.clearPredecessor tid, Event.memoryFence,
         Event.tryAddWaiting pred ok]
        ++ (if task.respawn_flag then
              Event.decrementRefCount pred (env.refCountReachesZero pred)
                :: (if env.refCountReachesZero pred
                    then [Event.deallocate pred] else [])
            else [])
      let task_is_ready := !ok
      (predEvents ++ [Event.setRespawnFlag tid false]
         ++ (if task_is_ready
             then [Event.incrementReadyCount, Event.pushReady tid] else []),
       { predecessor := none, respawn_flag := false })
  | none =>
      ([Event.setRespawnFlag tid false,
        Event.incrementReadyCount, Event.pushReady tid],
       { predecessor := none, respawn_flag := false })

/-- `TaskQueueCommonMixin::complete(RunnableTaskBase&&)`: if the respawn flag
is set, re-run the runnable scheduling algorithm; otherwise finalize via
`_complete_finished_task`; in both branches decrement the ready count at the
end of the call. -/
def complete_runnable (env : Env) (tid : Nat) (task : RunnableTask) :
    List Event :=
  (if task.respawn_flag then (schedule_runnable_to_queue env tid task).1
   else complete_finished_task env tid)
    ++ [Event.decrementReadyCount]

/-- `TaskQueueCommonMixin::complete(AggregateTask&&)`: finalize
unconditionally via `_complete_finished_task`. -/
def complete_aggregate (env : Env) (tid : Nat) : List Event :=
  complete_finished_task env tid

/-- The loop body of `TaskQueueCommonMixin::schedule_aggregate`, processing
the predecessor slots in scan order (the C++ iterates `i` from
`dependence_count() - 1` down to `0`, so this helper receives the slot list
reversed).  Each slot is swapped to null; a non-null slot gets one
`try_add_waiting` attempt followed unconditionally by a reference-count
release; a successful attempt sets `incomplete_dependence_found`, which stops
the loop.  Returns the events, the processed slot list (in scan order, with
unscanned slots unchanged) and the final `incomplete_dependence_found`. -/
def agg_scan (env : Env) : List (Option Nat) →
    List Event × List (Option Nat) × Bool
  | [] => ([], [], false)
  | none :: rest =>
      let r := agg_scan env rest
      (r.1, none :: r.2.1, r.2.2)
  | some pred :: rest =>
      let ok := env.tryAddWaiting pred
      let slotEvents :=
        Event.tryAddWaiting pred ok
          :: Event.decrementRefCount pred (env.refCountReachesZero pred)
          :: (if env.refCountReachesZero pred
              then [Event.deallocate pred] else [])
      if ok then
        (slotEvents, none :: rest, true)
      else
        let r := agg_scan env rest
        (slotEvents ++ r.1, none :: r.2.1, r.2.2)

/-- `TaskQueueCommonMixin::schedule_aggregate`: scan the aggregate's
predecessor slots from last to first, stopping at the first successful
wait-queue append; when no incomplete dependence is found, invoke
`complete` on the aggregate.  Returns the event trace and the final slot
list (in the original first-to-last order). -/
def schedule_aggregate (env : Env) (tid : Nat) (deps : List (Option Nat)) :
    List Event × List (Option Nat) :=
  let r := agg_scan env deps.reverse
  (r.1 ++ (if r.2.2 then []
           else Event.completeAggregate tid :: complete_finished_task env tid),
   r.2.1.reverse)

/-- Ready-count operations of the Ready-Count Tracker
(`_increment_ready_count` / `_decrement_ready_count`). -/
inductive ReadyOp where
  | increment
  | decrement
deriving DecidableEq, Repr

/-- Effect of one ready-count operation on `m_ready_count`
(`Kokkos::atomic_increment` / `Kokkos::atomic_decrement`). -/
def apply_ready_op (c : Int) : ReadyOp → Int
  | ReadyOp.increment => c + 1
  | ReadyOp.decrement => c - 1

/-- The value of `m_ready_count` after a sequence of increment/decrement
operations, starting from its initial value `0`. -/
def run_ready_ops (ops : List ReadyOp) : Int :=
  ops.foldl apply_ready_op 0

/-- The assertion checked by `~TaskQueueCommonMixin`:
`KOKKOS_EXPECTS(m_ready_count == 0)`. -/
def ready_count_teardown_check (c : Int) : Bool :=
  c == 0

/-- Whether `_schedule_runnable_to_queue` finds the task ready: it has no
predecessor, or the append to the predecessor's wait queue failed. -/
def task_is_ready (env : Env) (task : RunnableTask) : Bool :=
  match task.predecessor with
  | none => true
  | some p => !env.tryAddWaiting p

/-- The `(pred, ok)` pairs of the `try_add_waiting` events of a trace, in
order. -/
def tried_events : List Event → List (Nat × Bool)
  | [] => []
  | Event.tryAddWaiting p s :: rest => (p, s) :: tried_events rest
  | _ :: rest => tried_events rest

/-- The append attempts `schedule_aggregate` is specified to make, given the
non-null predecessors in scan order: one attempt per predecessor, stopping
after the first success. -/
def expected_scan (env : Env) : List Nat → List (Nat × Bool)
  | [] => []
  | p :: rest =>
      if env.tryAddWaiting p then [(p, true)]
      else (p, false) :: expected_scan env rest

/-- Modelled from the spec: the intrusive wait queue declared by the task node
(its implementation lives outside this file's source, in the task-node
collaborator).  Per §5/§9 of the spec it is an atomically appendable list with
a distinguished closed sentinel: appending fails once the owner has completed,
and draining atomically closes the queue. -/
inductive WaitQueueState where
  | active (waiters : List Nat)
  | closed
deriving DecidableEq, Repr

/-- Modelled from the spec: `try_add_waiting` — atomically append a waiter if
the queue is still open, fail (return false) if the owner already completed. -/
def try_add_waiting : WaitQueueState → Nat → Bool × WaitQueueState
  | WaitQueueState.active ws, w => (true, WaitQueueState.active (ws ++ [w]))
  | WaitQueueState.closed, _ => (false, WaitQueueState.closed)

/-- Modelled from the spec: `consume_wait_queue` — atomically close the queue
and return the waiters drained from it. -/
def consume_wait_queue : WaitQueueState → List Nat × WaitQueueState
  | WaitQueueState.active ws => (ws, WaitQueueState.closed)
  | WaitQueueState.closed => ([], WaitQueueState.closed)

/-- Number of times waiter `w` gets scheduled in the race between the waiter's
append (scheduling path) and the predecessor's drain (completion path).  Both
operations are single atomic linearization points, so an interleaving of the
two concurrent workers is exactly an order of the two operations
(`appendFirst`).  An append that fails schedules the waiter immediately
(once); a drained waiter is scheduled once per occurrence in the drained
list. -/
def race_outcome (ws0 : List Nat) (w : Nat) (appendFirst : Bool) : Nat :=
  if appendFirst then
    let a := try_add_waiting (WaitQueueState.active ws0) w
    let d := consume_wait_queue a.2
    (if a.1 then 0 else 1) + d.1.count w
  else
    let d := consume_wait_queue (WaitQueueState.active ws0)
    let a := try_add_waiting d.2 w
    (if a.1 then 0 else 1) + d.1.count w

/-- Concrete environment in which every wait-queue append succeeds (no
predecessor is complete) and no reference count reaches zero. -/
def env1 : Env := ⟨fun _ => true, fun _ => false, fun _ => []⟩

/-- Concrete environment in which every wait-queue append fails (every
predecessor already complete) and no reference count reaches zero. -/
def env2 : Env := ⟨fun _ => false, fun _ => false, fun _ => []⟩

theorem decReady_not_mem_sched (env : Env) (tid : Nat) (task : RunnableTask) :
    Event.decrementReadyCount ∉ (schedule_runnable_to_queue env tid task).1 := by
  cases task with
  | mk pred rf =>
    cases pred with
    | none => simp [schedule_runnable_to_queue]
    | some p =>
      simp only [schedule_runnable_to_queue]
      split <;> split <;> simp_all

theorem decReady_not_mem_finished (env : Env) (tid : Nat) :
    Event.decrementReadyCount ∉ complete_finished_task env tid := by
  simp only [complete_finished_task]
  split <;> simp

theorem run_ready_ops_from (ops : List ReadyOp) : ∀ c : Int,
    ops.foldl apply_ready_op c
      = c + (ops.count ReadyOp.increment : Int) - (ops.count ReadyOp.decrement : Int) := by
  induction ops with
  | nil => intro c; simp [List.count]
  | cons o rest ih =>
    intro c
    cases o <;>
      simp only [List.foldl_cons, apply_ready_op, ih, List.count_cons] <;>
      · simp
        omega

@[simp] theorem tried_events_nil : tried_events [] = [] := rfl

@[simp] theorem tried_events_cons_tryAdd (p : Nat) (b : Bool) (rest : List Event) :
    tried_events (Event.tryAddWaiting p b :: rest) = (p, b) :: tried_events rest := rfl

@[simp] theorem tried_events_cons_clear (t : Nat) (rest : List Event) :
    tried_events (Event.clearPredecessor t :: rest) = tried_events rest := rfl

@[simp] theorem tried_events_cons_fence (rest : List Event) :
    tried_events (Event.memoryFence :: rest) = tried_events rest := rfl

@[simp] theorem tried_events_cons_decRef (t : Nat) (z : Bool) (rest : List Event) :
    tried_events (Event.decrementRefCount t z :: rest) = tried_events rest := rfl

@[simp] theorem tried_events_cons_dealloc (t : Nat) (rest : List Event) :
    tried_events (Event.deallocate t :: rest) = tried_events rest := rfl

@[simp] theorem tried_events_cons_consume (t : Nat) (rest : List Event) :
    tried_events (Event.consumeWaitQueue t :: rest) = tried_events rest := rfl

@[simp] theorem tried_events_cons_schedW (w : Nat) (rest : List Event) :
    tried_events (Event.scheduleWaiter w :: rest) = tried_events rest := rfl

@[simp] theorem tried_events_cons_setFlag (t : Nat) (b : Bool) (rest : List Event) :
    tried_events (Event.setRespawnFlag t b :: rest) = tried_events rest := rfl

@[simp] theorem tried_events_cons_inc (rest : List Event) :
    tried_events (Event.incrementReadyCount :: rest) = tried_events rest := rfl

@[simp] theorem tried_events_cons_dec (rest : List Event) :
    tried_events (Event.decrementReadyCount :: rest) = tried_events rest := rfl

@[simp] theorem tried_events_cons_compAgg (t : Nat) (rest : List Event) :
    tried_events (Event.completeAggregate t :: rest) = tried_events rest := rfl

@[simp] theorem tried_events_cons_push (t : Nat) (rest : List Event) :
    tried_events (Event.pushReady t :: rest) = tried_events rest := rfl

@[simp] theorem tried_events_append (a b : List Event) :
    tried_events (a ++ b) = tried_events a ++ tried_events b := by
  induction a with
  | nil => rfl
  | cons e rest ih => cases e <;> simp [ih]

@[simp] theorem tried_events_map_scheduleWaiter (ws : List Nat) :
    tried_events (ws.map Event.scheduleWaiter) = [] := by
  induction ws with
  | nil => rfl
  | cons w rest ih => simp [ih]

theorem tried_events_finished (env : Env) (tid : Nat) :
    tried_events (complete_finished_task env tid) = [] := by
  simp only [complete_finished_task]
  split <;> simp

theorem agg_scan_tried (env : Env) : ∀ l : List (Option Nat),
    tried_events (agg_scan env l).1 = expected_scan env (l.filterMap id)
  | [] => rfl
  | none :: rest => by
      simp only [agg_scan, List.filterMap_cons_none]
      exact agg_scan_tried env rest
  | some p :: rest => by
      have ih := agg_scan_tried env rest
      simp only [agg_scan, List.filterMap_cons_some]
      cases hok : env.tryAddWaiting p <;>
        cases hz : env.refCountReachesZero p <;>
          simp [expected_scan, hok, hz, ih]

theorem agg_scan_found (env : Env) : ∀ l : List (Option Nat),
    (agg_scan env l).2.2 = (l.filterMap id).any env.tryAddWaiting
  | [] => rfl
  | none :: rest => by
      simp only [agg_scan, List.filterMap_cons_none]
      exact agg_scan_found env rest
  | some p :: rest => by
      have ih := agg_scan_found env rest
      simp only [agg_scan, List.filterMap_cons_some]
      cases hok : env.tryAddWaiting p <;> simp [hok, ih]

/-- Structure of one `schedule_aggregate` scan over the slots in scan order:
the list splits into the processed prefix `proc` (every processed slot is
swapped to null) and the untouched remainder `rem`; either the scan exhausted
the list with every non-null processed predecessor failing its append, or it
stopped at a successful append, with every earlier processed predecessor
having failed. -/
theorem agg_scan_split (env : Env) : ∀ l : List (Option Nat),
    ∃ proc rem : List (Option Nat),
      l = proc ++ rem
      ∧ (agg_scan env l).2.1 = List.replicate proc.length none ++ rem
      ∧ ((rem = [] ∧ ∀ p ∈ proc.filterMap id, env.tryAddWaiting p = false)
         ∨ (∃ p proct, proc = proct ++ [some p] ∧ env.tryAddWaiting p = true
             ∧ ∀ q ∈ proct.filterMap id, env.tryAddWaiting q = false))
  | [] => ⟨[], [], rfl, rfl, Or.inl ⟨rfl, by simp⟩⟩
  | none :: rest => by
      obtain ⟨proc, rem, he, hs, hd⟩ := agg_scan_split env rest
      refine ⟨none :: proc, rem, by simp [he], ?_, ?_⟩
      · simp only [agg_scan, hs, List.length_cons, List.replicate_succ]
        rfl
      · rcases hd with ⟨hrem, hall⟩ | ⟨p, proct, hpr, hp, hall⟩
        · refine Or.inl ⟨hrem, fun r hr => hall r ?_⟩
          rwa [show List.filterMap id (none :: proc) = List.filterMap id proc
            from List.filterMap_cons_none rfl] at hr
        · refine Or.inr ⟨p, none :: proct, by simp [hpr], hp, fun r hr => hall r ?_⟩
          rwa [show List.filterMap id (none :: proct) = List.filterMap id proct
            from List.filterMap_cons_none rfl] at hr
  | some q :: rest => by
      cases hq : env.tryAddWaiting q with
      | true =>
        refine ⟨[some q], rest, rfl, ?_, ?_⟩
        · simp [agg_scan, hq]
        · exact Or.inr ⟨q, [], rfl, hq, by simp⟩
      | false =>
        obtain ⟨proc, rem, he, hs, hd⟩ := agg_scan_split env rest
        refine ⟨some q :: proc, rem, by simp [he], ?_, ?_⟩
        · simp only [agg_scan, hq, Bool.false_eq_true, if_neg, hs,
            List.length_cons, List.replicate_succ]
          simp
        · rcases hd with ⟨hrem, hall⟩ | ⟨p, proct, hpr, hp, hall⟩
          · refine Or.inl ⟨hrem, ?_⟩
            intro r hr
            rw [show List.filterMap id (some q :: proc) = q :: List.filterMap id proc
              from List.filterMap_cons_some rfl] at hr
            rcases List.mem_cons.mp hr with hr | hr
            · rw [hr]; exact hq
            · exact hall r hr
          · refine Or.inr ⟨p, some q :: proct, by simp [hpr], hp, ?_⟩
            intro r hr
            rw [show List.filterMap id (some q :: proct) = q :: List.filterMap id proct
              from List.filterMap_cons_some rfl] at hr
            rcases List.mem_cons.mp hr with hr | hr
            · rw [hr]; exact hq
            · exact hall r hr

theorem agg_scan_no_completeAggregate (env : Env) (t : Nat) :
    ∀ l : List (Option Nat), Event.completeAggregate t ∉ (agg_scan env l).1
  | [] => by simp [agg_scan]
  | none :: rest => by
      simp only [agg_scan]
      exact agg_scan_no_completeAggregate env t rest
  | some p :: rest => by
      have ih := agg_scan_no_completeAggregate env t rest
      simp only [agg_scan]
      cases hok : env.tryAddWaiting p <;>
        cases hz : env.refCountReachesZero p <;> simp [hok, hz, ih]

theorem agg_scan_decRef_of_tryAdd (env : Env) :
    ∀ (l : List (Option Nat)) (p : Nat) (s : Bool),
      Event.tryAddWaiting p s ∈ (agg_scan env l).1 →
      Event.decrementRefCount p (env.refCountReachesZero p) ∈ (agg_scan env l).1
  | [] => by simp [agg_scan]
  | none :: rest => by
      simp only [agg_scan]
      exact agg_scan_decRef_of_tryAdd env rest
  | some q :: rest => by
      intro p s
      have ih := agg_scan_decRef_of_tryAdd env rest p s
      simp only [agg_scan]
      cases hok : env.tryAddWaiting q with
      | true =>
        cases hz : env.refCountReachesZero q <;>
          · simp [hok, hz]
            intro hpq _
            exact ⟨hpq, by rw [hpq]; exact hz⟩
      | false =>
        cases hz : env.refCountReachesZero q <;>
          · simp [hok, hz]
            intro h
            rcases h with ⟨hpq, _⟩ | hmem
            · exact Or.inl ⟨hpq, by rw [hpq]; exact hz⟩
            · exact Or.inr (ih hmem)

theorem tryAdd_not_mem_finished (env : Env) (tid p : Nat) (s : Bool) :
    Event.tryAddWaiting p s ∉ complete_finished_task env tid := by
  simp only [complete_finished_task]
  split <;> simp

theorem schedule_aggregate_tried (env : Env) (tid : Nat)
    (deps : List (Option Nat)) :
    tried_events (schedule_aggregate env tid deps).1
      = expected_scan env (deps.reverse.filterMap id) := by
  simp only [schedule_aggregate]
  rw [tried_events_append, agg_scan_tried]
  have h : tried_events (if (agg_scan env deps.reverse).2.2 then []
      else Event.completeAggregate tid :: complete_finished_task env tid) = [] := by
    split
    · rfl
    · simp [tried_events_finished]
  rw [h, List.append_nil]

theorem expected_scan_stops (env : Env) :
    ∀ (ps : List Nat) (l1 : List (Nat × Bool)) (p : Nat) (l2 : List (Nat × Bool)),
      expected_scan env ps = l1 ++ (p, true) :: l2 → l2 = []
  | [], l1, p, l2 => by
      intro h
      rw [expected_scan] at h
      exact absurd h.symm (by simp)
  | q :: rest, l1, p, l2 => by
      intro h
      by_cases hq : env.tryAddWaiting q = true
      · rw [expected_scan, if_pos hq] at h
        have hlen := congrArg List.length h
        simp at hlen
        have h0 : l2.length = 0 := by omega
        exact List.eq_nil_of_length_eq_zero h0
      · rw [expected_scan, if_neg hq] at h
        cases l1 with
        | nil =>
          simp at h
        | cons a l1t =>
          simp at h
          exact expected_scan_stops env rest l1t p l2 h.2

/-- C1 counterexample: in `schedule_aggregate`, when the append to the
predecessor's wait queue succeeds (`try_add_waiting` returns true), the code
still releases the reference count the slot held on the predecessor: with
every append succeeding, the scan of the one-slot aggregate performs
`decrementRefCount` on predecessor 5 even though the append succeeded,
refuting "the scan stops immediately without releasing that slot's reference
count". -/
theorem claim_C1_counterexample :
    env1.tryAddWaiting 5 = true
    ∧ (schedule_aggregate env1 7 [some 5]).1
        = [Event.tryAddWaiting 5 true, Event.decrementRefCount 5 false]
    ∧ Event.decrementRefCount 5 false ∈ (schedule_aggregate env1 7 [some 5]).1 := by
  decide

/-- C1 (amended): in `schedule_aggregate`, for every non-null predecessor
slot scanned, the reference count that the slot held on the predecessor is
released (with deallocation if it reaches zero) regardless of whether the
append to the predecessor's wait queue succeeded or failed; and when an
append succeeds the scan stops immediately after that release (no further
append attempt follows a successful one). -/
theorem claim_C1 (env : Env) (tid : Nat) (deps : List (Option Nat)) :
    (∀ (p : Nat) (s : Bool),
        Event.tryAddWaiting p s ∈ (schedule_aggregate env tid deps).1 →
        Event.decrementRefCount p (env.refCountReachesZero p)
          ∈ (schedule_aggregate env tid deps).1)
    ∧ (∀ (l1 : List (Nat × Bool)) (p : Nat) (l2 : List (Nat × Bool)),
        tried_events (schedule_aggregate env tid deps).1 = l1 ++ (p, true) :: l2
        → l2 = []) := by
  constructor
  · intro p s hm
    simp only [schedule_aggregate, List.mem_append] at hm ⊢
    rcases hm with hm | hm
    · exact Or.inl (agg_scan_decRef_of_tryAdd env deps.reverse p s hm)
    · exfalso
      rcases hx : (agg_scan env deps.reverse).2.2 with _ | _
      · rw [hx] at hm
        simp at hm
        exact tryAdd_not_mem_finished env tid p s hm
      · rw [hx] at hm
        simp at hm
  · intro l1 p l2 h
    rw [schedule_aggregate_tried] at h
    exact expected_scan_stops env _ l1 p l2 h

/-- Witness for C1 at a concrete input: a successful append is still followed
by the release of the slot's reference count on the predecessor. -/
theorem claim_C1_witness :
    Event.decrementRefCount 5 false ∈ (schedule_aggregate env1 7 [some 5]).1 :=
  (claim_C1 env1 7 [some 5]).1 5 true (by decide)

/-- C2: `complete` on a runnable task decrements the ready count exactly once
per call; if the respawn flag is set the call re-runs the runnable scheduling
algorithm on the task; otherwise it drains the task's wait queue, decrements
the task's own reference count, and deallocates the task exactly when that
decrement reaches zero. -/
theorem claim_C2 (env : Env) (tid : Nat) (task : RunnableTask) :
    (complete_runnable env tid task).count Event.decrementReadyCount = 1
    ∧ (task.respawn_flag = true →
        complete_runnable env tid task
          = (schedule_runnable_to_queue env tid task).1 ++ [Event.decrementReadyCount])
    ∧ (task.respawn_flag = false →
        Event.consumeWaitQueue tid ∈ complete_runnable env tid task
        ∧ Event.decrementRefCount tid (env.refCountReachesZero tid) ∈ complete_runnable env tid task
        ∧ (Event.deallocate tid ∈ complete_runnable env tid task
            ↔ env.refCountReachesZero tid = true)) := by
  refine ⟨?_, ?_, ?_⟩
  · unfold complete_runnable
    rw [List.count_append]
    split
    · rw [List.count_eq_zero.mpr (decReady_not_mem_sched env tid task)]; rfl
    · rw [List.count_eq_zero.mpr (decReady_not_mem_finished env tid)]; rfl
  · intro h; simp [complete_runnable, h]
  · intro h
    simp only [complete_runnable, h, if_neg Bool.false_ne_true, complete_finished_task]
    refine ⟨by simp, by simp, ?_⟩
    constructor
    · intro hm
      by_contra hz
      simp [hz, List.mem_map] at hm
    · intro hz
      simp [hz]

/-- Witness for C2 at a concrete input: exactly one ready-count decrement, and
the non-respawn branch drains the task's wait queue. -/
theorem claim_C2_witness :
    (complete_runnable env2 0 ⟨none, false⟩).count Event.decrementReadyCount = 1
    ∧ Event.consumeWaitQueue 0 ∈ complete_runnable env2 0 ⟨none, false⟩ :=
  ⟨(claim_C2 env2 0 ⟨none, false⟩).1,
   ((claim_C2 env2 0 ⟨none, false⟩).2.2 rfl).1⟩

/-- C3 counterexample: for a respawning task that becomes ready again, the
trace of `complete` has its unique ready-count increment at index 5 and its
unique ready-count decrement at index 7 — the increment performed inside the
respawn's scheduling branch comes first and the decrement performed by
`complete` comes after it, refuting "decrement first, then re-increment". -/
theorem claim_C3_counterexample :
    (complete_runnable env2 0 ⟨some 3, true⟩)[5]? = some Event.incrementReadyCount
    ∧ (complete_runnable env2 0 ⟨some 3, true⟩)[7]? = some Event.decrementReadyCount
    ∧ (complete_runnable env2 0 ⟨some 3, true⟩).count Event.incrementReadyCount = 1
    ∧ (complete_runnable env2 0 ⟨some 3, true⟩).count Event.decrementReadyCount = 1 := by
  decide

/-- C3 (amended): for every call to `complete` on a runnable task whose
respawn flag is set and which becomes ready again, the ready-count increment
performed by the respawn's scheduling branch occurs before the ready-count
decrement performed by `complete` (order within the call: re-increment first,
then decrement at the end of the call), each occurring exactly once. -/
theorem claim_C3 (env : Env) (tid : Nat) (task : RunnableTask)
    (hr : task.respawn_flag = true)
    (hready : task_is_ready env task = true) :
    ∃ i j : Nat, i < j
      ∧ (complete_runnable env tid task)[i]? = some Event.incrementReadyCount
      ∧ (complete_runnable env tid task)[j]? = some Event.decrementReadyCount
      ∧ (complete_runnable env tid task).count Event.incrementReadyCount = 1
      ∧ (complete_runnable env tid task).count Event.decrementReadyCount = 1 := by
  cases task with
  | mk pred rf =>
    cases hr
    cases pred with
    | none =>
      refine ⟨1, 3, by omega, ?_⟩
      simp [complete_runnable, schedule_runnable_to_queue, List.count_cons]
    | some p =>
      have hok : env.tryAddWaiting p = false := by
        simp [task_is_ready] at hready
        exact hready
      have h1 : complete_runnable env tid ⟨some p, true⟩
          = (schedule_runnable_to_queue env tid ⟨some p, true⟩).1
            ++ [Event.decrementReadyCount] := by
        simp [complete_runnable]
      cases hz : env.refCountReachesZero p with
      | true =>
        refine ⟨6, 8, by omega, ?_⟩
        rw [h1]
        simp [schedule_runnable_to_queue, hok, hz, List.count_cons]
      | false =>
        refine ⟨5, 7, by omega, ?_⟩
        rw [h1]
        simp [schedule_runnable_to_queue, hok, hz, List.count_cons]

/-- Witness for C3 at a concrete input. -/
theorem claim_C3_witness :
    ∃ i j : Nat, i < j
      ∧ (complete_runnable env2 1 ⟨some 3, true⟩)[i]? = some Event.incrementReadyCount
      ∧ (complete_runnable env2 1 ⟨some 3, true⟩)[j]? = some Event.decrementReadyCount
      ∧ (complete_runnable env2 1 ⟨some 3, true⟩).count Event.incrementReadyCount = 1
      ∧ (complete_runnable env2 1 ⟨some 3, true⟩).count Event.decrementReadyCount = 1 :=
  claim_C3 env2 1 ⟨some 3, true⟩ rfl (by decide)

/-- C4: `schedule_aggregate` walks the aggregate's predecessor list from the
last slot to the first (the append attempts are exactly the non-null
predecessors of the reversed slot list, cut at the first success), stops
scanning at the first successful wait-queue append, and leaves the remaining
unscanned slots untouched: the predecessor list splits as `pre ++ suf` where
the scanned suffix `suf` is fully cleared and the unscanned prefix `pre` is
left exactly as it was (so its non-null slots stay non-null), every scanned
slot after the stopping one failed its append, and a non-empty unscanned
prefix exists only because the scan stopped at a successful append at the
boundary slot; and `complete` is invoked on the aggregate exactly when no
predecessor's append succeeds (all predecessors already done). -/
theorem claim_C4 (env : Env) (tid : Nat) (deps : List (Option Nat)) :
    tried_events (schedule_aggregate env tid deps).1
        = expected_scan env (deps.reverse.filterMap id)
    ∧ (∃ pre suf : List (Option Nat),
        deps = pre ++ suf
        ∧ (schedule_aggregate env tid deps).2
            = pre ++ List.replicate suf.length (none : Option Nat)
        ∧ (∀ p ∈ suf.tail.filterMap id, env.tryAddWaiting p = false)
        ∧ (pre = [] ∨ ∃ p, suf.head? = some (some p) ∧ env.tryAddWaiting p = true))
    ∧ (Event.completeAggregate tid ∈ (schedule_aggregate env tid deps).1
        ↔ ∀ p ∈ deps.filterMap id, env.tryAddWaiting p = false) := by
  refine ⟨schedule_aggregate_tried env tid deps, ?_, ?_⟩
  · obtain ⟨proc, rem, he, hs, hd⟩ := agg_scan_split env deps.reverse
    refine ⟨rem.reverse, proc.reverse, ?_, ?_, ?_, ?_⟩
    · have h2 := congrArg List.reverse he
      simpa [List.reverse_append] using h2
    · simp only [schedule_aggregate, hs]
      rw [List.reverse_append, List.reverse_replicate]
      simp
    · rcases hd with ⟨hrem, hall⟩ | ⟨p, proct, hpr, hp, hall⟩
      · intro r hr
        have hsub : (proc.reverse.tail.filterMap id).Sublist (proc.reverse.filterMap id) :=
          List.Sublist.filterMap id (List.tail_sublist _)
        have hmem : r ∈ proc.reverse.filterMap id := List.Sublist.mem hr hsub
        rw [List.filterMap_reverse] at hmem
        exact hall r (List.mem_reverse.mp hmem)
      · subst hpr
        intro r hr
        rw [List.reverse_append] at hr
        simp only [List.reverse_cons, List.reverse_nil, List.nil_append,
          List.singleton_append, List.tail_cons] at hr
        rw [List.filterMap_reverse] at hr
        exact hall r (List.mem_reverse.mp hr)
    · rcases hd with ⟨hrem, hall⟩ | ⟨p, proct, hpr, hp, hall⟩
      · exact Or.inl (by simp [hrem])
      · refine Or.inr ⟨p, ?_, hp⟩
        subst hpr
        rw [List.head?_reverse]
        simp
  · have h1 : Event.completeAggregate tid ∉ (agg_scan env deps.reverse).1 :=
      agg_scan_no_completeAggregate env tid deps.reverse
    have hfound : (agg_scan env deps.reverse).2.2
        = (deps.filterMap id).any env.tryAddWaiting := by
      rw [agg_scan_found]
      simp [List.filterMap_reverse]
    simp only [schedule_aggregate, List.mem_append]
    constructor
    · rintro (hm | hm)
      · exact absurd hm h1
      · have hf : (agg_scan env deps.reverse).2.2 = false := by
          by_contra hc
          rw [Bool.not_eq_false] at hc
          simp [hc] at hm
        rw [hfound] at hf
        intro p hp
        rw [List.any_eq_false] at hf
        simpa using hf p hp
    · intro hall
      have hf : (agg_scan env deps.reverse).2.2 = false := by
        rw [hfound, List.any_eq_false]
        intro p hp
        simp [hall p hp]
      right
      simp [hf]

/-- C5: in `_schedule_runnable_to_queue`, for a task that declares a
predecessor: the predecessor reference is read and cleared from the task,
then a memory fence is issued, then the append to the predecessor's wait
queue is attempted (the first three events, in that order); and when the
respawn flag is set, the predecessor's reference count is released after the
append attempt (it appears among the events following the first three),
regardless of whether the append succeeded. -/
theorem claim_C5 (env : Env) (tid : Nat) (task : RunnableTask) (p : Nat)
    (hp : task.predecessor = some p) :
    (schedule_runnable_to_queue env tid task).1.take 3
      = [Event.clearPredecessor tid, Event.memoryFence,
         Event.tryAddWaiting p (env.tryAddWaiting p)]
    ∧ (schedule_runnable_to_queue env tid task).2.predecessor = none
    ∧ (task.respawn_flag = true →
        Event.decrementRefCount p (env.refCountReachesZero p)
          ∈ (schedule_runnable_to_queue env tid task).1.drop 3) := by
  cases task with
  | mk pred rf =>
    cases hp
    refine ⟨?_, ?_, ?_⟩
    · simp only [schedule_runnable_to_queue]
      split <;> split <;> simp
    · simp [schedule_runnable_to_queue]
    · intro hr
      cases hr
      simp only [schedule_runnable_to_queue]
      split <;> split <;> simp_all

/-- Witness for C5 at a concrete input. -/
theorem claim_C5_witness :
    (schedule_runnable_to_queue env2 2 ⟨some 4, true⟩).1.take 3
        = [Event.clearPredecessor 2, Event.memoryFence,
           Event.tryAddWaiting 4 (env2.tryAddWaiting 4)]
    ∧ Event.decrementRefCount 4 (env2.refCountReachesZero 4)
        ∈ (schedule_runnable_to_queue env2 2 ⟨some 4, true⟩).1.drop 3 :=
  ⟨(claim_C5 env2 2 ⟨some 4, true⟩ 4 rfl).1,
   (claim_C5 env2 2 ⟨some 4, true⟩ 4 rfl).2.2 rfl⟩

/-- C6: every call to `_schedule_runnable_to_queue` clears the task's respawn
flag; the task is pushed onto the ready queue iff it is ready (no
predecessor, or the append to the predecessor's wait queue failed), with the
ready-count increment immediately before the push; and when the task is not
ready, neither the push nor the increment occurs and the call's trace ends at
the respawn-flag clear (the task is not touched again). -/
theorem claim_C6 (env : Env) (tid : Nat) (task : RunnableTask) :
    (schedule_runnable_to_queue env tid task).2.respawn_flag = false
    ∧ Event.setRespawnFlag tid false ∈ (schedule_runnable_to_queue env tid task).1
    ∧ (Event.pushReady tid ∈ (schedule_runnable_to_queue env tid task).1
        ↔ task_is_ready env task = true)
    ∧ (Event.incrementReadyCount ∈ (schedule_runnable_to_queue env tid task).1
        ↔ task_is_ready env task = true)
    ∧ (task_is_ready env task = true →
        ∃ pre, (schedule_runnable_to_queue env tid task).1
          = pre ++ [Event.incrementReadyCount, Event.pushReady tid])
    ∧ (task_is_ready env task = false →
        ∃ pre, (schedule_runnable_to_queue env tid task).1
          = pre ++ [Event.setRespawnFlag tid false]) := by
  cases task with
  | mk pred rf =>
    cases pred with
    | none =>
      refine ⟨rfl, by simp [schedule_runnable_to_queue], ?_, ?_, ?_, ?_⟩
      · simp [schedule_runnable_to_queue, task_is_ready]
      · simp [schedule_runnable_to_queue, task_is_ready]
      · intro _; exact ⟨[Event.setRespawnFlag tid false], rfl⟩
      · intro h; simp [task_is_ready] at h
    | some p =>
      have hready : task_is_ready env ⟨some p, rf⟩ = !env.tryAddWaiting p := rfl
      refine ⟨rfl, ?_, ?_, ?_, ?_, ?_⟩
      · simp only [schedule_runnable_to_queue]
        split <;> split <;> simp
      · simp only [schedule_runnable_to_queue, hready]
        cases hok : env.tryAddWaiting p <;> split <;> simp_all
      · simp only [schedule_runnable_to_queue, hready]
        cases hok : env.tryAddWaiting p <;> split <;> simp_all
      · rw [hready]
        intro h
        have hok : env.tryAddWaiting p = false := by
          cases hok : env.tryAddWaiting p <;> simp_all
        simp only [schedule_runnable_to_queue, hok]
        split
        · split
          · exact ⟨[Event.clearPredecessor tid, Event.memoryFence,
              Event.tryAddWaiting p false,
              Event.decrementRefCount p (env.refCountReachesZero p),
              Event.deallocate p, Event.setRespawnFlag tid false], rfl⟩
          · exact ⟨[Event.clearPredecessor tid, Event.memoryFence,
              Event.tryAddWaiting p false,
              Event.decrementRefCount p (env.refCountReachesZero p),
              Event.setRespawnFlag tid false], rfl⟩
        · exact ⟨[Event.clearPredecessor tid, Event.memoryFence,
            Event.tryAddWaiting p false, Event.setRespawnFlag tid false], rfl⟩
      · rw [hready]
        intro h
        have hok : env.tryAddWaiting p = true := by
          cases hok : env.tryAddWaiting p <;> simp_all
        simp only [schedule_runnable_to_queue, hok]
        split
        · split
          · exact ⟨[Event.clearPredecessor tid, Event.memoryFence,
              Event.tryAddWaiting p true,
              Event.decrementRefCount p (env.refCountReachesZero p),
              Event.deallocate p], rfl⟩
          · exact ⟨[Event.clearPredecessor tid, Event.memoryFence,
              Event.tryAddWaiting p true,
              Event.decrementRefCount p (env.refCountReachesZero p)], rfl⟩
        · exact ⟨[Event.clearPredecessor tid, Event.memoryFence,
            Event.tryAddWaiting p true], rfl⟩

/-- Witness for C6 at concrete inputs: a ready task's trace ends with the
increment followed by the push; a non-ready task's trace ends at the
respawn-flag clear. -/
theorem claim_C6_witness :
    (∃ pre, (schedule_runnable_to_queue env2 3 ⟨some 9, false⟩).1
        = pre ++ [Event.incrementReadyCount, Event.pushReady 3])
    ∧ (∃ pre, (schedule_runnable_to_queue env1 3 ⟨some 9, false⟩).1
        = pre ++ [Event.setRespawnFlag 3 false]) :=
  ⟨(claim_C6 env2 3 ⟨some 9, false⟩).2.2.2.2.1 (by decide),
   (claim_C6 env1 3 ⟨some 9, false⟩).2.2.2.2.2 (by decide)⟩

/-- C7: every call to `complete` on an aggregate task finalizes it
unconditionally — it is exactly `_complete_finished_task`: it drains the wait
queue, decrements the aggregate's reference count, deallocates exactly when
the count reaches zero — and performs no ready-count increment or decrement
whatsoever. -/
theorem claim_C7 (env : Env) (tid : Nat) :
    complete_aggregate env tid = complete_finished_task env tid
    ∧ Event.consumeWaitQueue tid ∈ complete_aggregate env tid
    ∧ Event.decrementRefCount tid (env.refCountReachesZero tid) ∈ complete_aggregate env tid
    ∧ (Event.deallocate tid ∈ complete_aggregate env tid
        ↔ env.refCountReachesZero tid = true)
    ∧ Event.incrementReadyCount ∉ complete_aggregate env tid
    ∧ Event.decrementReadyCount ∉ complete_aggregate env tid := by
  refine ⟨rfl, ?_, ?_, ?_, ?_, ?_⟩
  · simp [complete_aggregate, complete_finished_task]
  · simp [complete_aggregate, complete_finished_task]
  · constructor
    · intro hm
      by_contra hz
      simp [complete_aggregate, complete_finished_task, hz, List.mem_map] at hm
    · intro hz
      simp [complete_aggregate, complete_finished_task, hz]
  · simp only [complete_aggregate, complete_finished_task]
    split <;> simp
  · simp only [complete_aggregate, complete_finished_task]
    split <;> simp

/-- C8: the destructor `~TaskQueueCommonMixin` asserts
(`KOKKOS_EXPECTS`) that the ready count is exactly zero — the checked
predicate holds iff the count is zero, a boolean assertion rather than a
recoverable branch — and under the precondition that every increment has been
paired with a decrement, the count at teardown is zero and the assertion
holds. -/
theorem claim_C8 (ops : List ReadyOp)
    (h : ops.count ReadyOp.increment = ops.count ReadyOp.decrement) :
    ready_count_teardown_check (run_ready_ops ops) = true
    ∧ ∀ c : Int, (ready_count_teardown_check c = true ↔ c = 0) := by
  constructor
  · have := run_ready_ops_from ops 0
    rw [run_ready_ops, this, h]
    simp [ready_count_teardown_check]
  · intro c
    simp [ready_count_teardown_check]

/-- Witness for C8 at a concrete operation sequence. -/
theorem claim_C8_witness :
    ready_count_teardown_check
      (run_ready_ops [ReadyOp.increment, ReadyOp.decrement]) = true :=
  (claim_C8 [ReadyOp.increment, ReadyOp.decrement] (by decide)).1

/-- C9: for every predecessor/waiter pair, when the waiter's wait-queue
append races with the predecessor's completion-time drain, the waiter is
scheduled exactly once — immediately when the append fails (the drain already
closed the queue) or later via the drained list when the append succeeds —
never zero times and never twice.  Both operations are single atomic
linearization points (spec §5), so the interleavings of the two concurrent
workers are exactly the two orders of those points. -/
theorem claim_C9 (ws0 : List Nat) (w : Nat) (hw : w ∉ ws0) (b : Bool) :
    race_outcome ws0 w b = 1 := by
  have hc : ws0.count w = 0 := List.count_eq_zero.mpr hw
  cases b with
  | true =>
    simp [race_outcome, try_add_waiting, consume_wait_queue, List.count_append, hc]
  | false =>
    simp [race_outcome, try_add_waiting, consume_wait_queue, hc]

/-- Witness for C9 at a concrete queue and both interleavings. -/
theorem claim_C9_witness :
    race_outcome [2, 3] 5 true = 1 ∧ race_outcome [2, 3] 5 false = 1 :=
  ⟨claim_C9 [2, 3] 5 (by decide) true, claim_C9 [2, 3] 5 (by decide) false⟩

/-- C10: a call to `complete` on a runnable task whose respawn flag is set
never drains the task's own wait queue, never decrements the task's own
reference count, and never deallocates the task itself (the task survives
the call; only the predecessor's reference count may be decremented inside
the scheduling branch). -/
theorem claim_C10 (env : Env) (tid : Nat) (task : RunnableTask)
    (hr : task.respawn_flag = true) (hp : task.predecessor ≠ some tid) :
    Event.consumeWaitQueue tid ∉ complete_runnable env tid task
    ∧ (∀ z, Event.decrementRefCount tid z ∉ complete_runnable env tid task)
    ∧ Event.deallocate tid ∉ complete_runnable env tid task := by
  cases task with
  | mk pred rf =>
    cases hr
    cases pred with
    | none =>
      refine ⟨by simp [complete_runnable, schedule_runnable_to_queue], ?_,
        by simp [complete_runnable, schedule_runnable_to_queue]⟩
      intro z
      simp [complete_runnable, schedule_runnable_to_queue]
    | some p =>
      have hpt : p ≠ tid := by
        intro he; exact hp (by rw [he])
      have hpt2 : tid ≠ p := fun he => hpt he.symm
      have h1 : complete_runnable env tid ⟨some p, true⟩
          = (schedule_runnable_to_queue env tid ⟨some p, true⟩).1
            ++ [Event.decrementReadyCount] := by
        simp [complete_runnable]
      refine ⟨?_, ?_, ?_⟩
      · rw [h1]
        simp only [schedule_runnable_to_queue]
        split <;> split <;> simp_all
      · intro z
        rw [h1]
        simp only [schedule_runnable_to_queue]
        split <;> split <;> simp_all
      · rw [h1]
        simp only [schedule_runnable_to_queue]
        split <;> split <;> simp_all


/-- Witness for C10 at a concrete input. -/
theorem claim_C10_witness :
    Event.consumeWaitQueue 0 ∉ complete_runnable env2 0 ⟨some 3, true⟩
    ∧ Event.deallocate 0 ∉ complete_runnable env2 0 ⟨some 3, true⟩ :=
  ⟨(claim_C10 env2 0 ⟨some 3, true⟩ rfl (by decide)).1,
   (claim_C10 env2 0 ⟨some 3, true⟩ rfl (by decide)).2.2⟩
